import Mathlib

/-!
Shallow embedding of the loop-prediction aggregation core of
`analysis/analyze.py`: the `LoopPrediction` record, the `LoopPredictionSet`
collection (ordered list of records plus an id-to-record dictionary), its
sorting, truncation, slicing and statistics operations, and the fragments of
`extract_analysis_data` that the per-case statistics are read from.

Modelling conventions:
* numeric values (scores, RMSD values) are rationals; ids are integers;
* a Python dictionary is an insertion-ordered association list whose keys are
  kept unique by `dictInsert`;
* Python exceptions are modelled with `Except PyError`;
* optional values (`None` in the source) are `Option`; the Python 2 ordering,
  under which `None` compares below every number, is `pyLt` / `pyLe`.
-/

/-- Error values corresponding to the Python exceptions the modelled code can
raise: assertion failures, the explicit `raise Exception(...)` for missing RMSD
values in `fraction_with_rmsd_lt`, the explicit `raise IndexError` in
`__getitem__`, the built-in `IndexError` of Python list indexing, `KeyError`
from `del` on an absent key, and `ZeroDivisionError` from
`float(c) / float(0)`. -/
inductive PyError where
  | assertionError
  | missingData
  | indexErrorExplicit
  | indexErrorBuiltin
  | keyError
  | zeroDivisionError
  deriving DecidableEq

/-- Embeds the Python 2 `<` comparison on an optional numeric value: `None`
compares smaller than every number, and `None < None` is false. -/
def pyLt : Option ℚ → Option ℚ → Prop
  | none, none => False
  | none, some _ => True
  | some _, none => False
  | some a, some b => a < b

instance (a b : Option ℚ) : Decidable (pyLt a b) :=
  match a, b with
  | none, none => isFalse (fun h => h)
  | none, some _ => isTrue trivial
  | some _, none => isFalse (fun h => h)
  | some a, some b => inferInstanceAs (Decidable (a < b))

/-- Embeds the Python 2 `<=` comparison on an optional numeric value: `None`
compares below every number and `None <= None` holds. -/
def pyLe : Option ℚ → Option ℚ → Prop
  | none, _ => True
  | some _, none => False
  | some a, some b => a ≤ b

instance (a b : Option ℚ) : Decidable (pyLe a b) :=
  match a, b with
  | none, _ => isTrue trivial
  | some _, none => isFalse (fun h => h)
  | some a, some b => inferInstanceAs (Decidable (a ≤ b))

/-- Embeds a loop prediction record (`LoopPrediction.__init__`): id, score,
optional source PDB id, optional RMSD (absent until computed), optional path to
the predicted structure, optional coordinate matrix. The `_check_types`
validation always succeeds in this typed model (scores and RMSD values are
numerics by construction), so it has no run-time effect here. -/
structure LoopPrediction where
  id : Int
  score : ℚ
  pdb_id : Option String
  rmsd : Option ℚ
  pdb_path : Option String
  pdb_loop_residue_matrix : Option (List (ℚ × ℚ × ℚ))
  deriving DecidableEq

/-- Embeds the static comparator `LoopPrediction.sort_by_score`: score
ascending, then RMSD ascending (Python 2 ordering, where an absent RMSD sorts
below every number), then id ascending; it returns -1 or 1, never 0. The
source first executes `assert(a.id != b.id)`; all sorting theorems below carry
a pairwise-distinct-ids hypothesis, under which that assertion never fires, so
the embedding returns the comparison value directly. -/
def LoopPrediction.sort_by_score (a b : LoopPrediction) : Int :=
  if a.score ≠ b.score then (if a.score < b.score then -1 else 1)
  else if a.rmsd ≠ b.rmsd then (if pyLt a.rmsd b.rmsd then -1 else 1)
  else (if a.id < b.id then -1 else 1)

/-- Embeds the static comparator `LoopPrediction.sort_by_rmsd`: RMSD ascending
(Python 2 ordering), then score ascending, then id ascending; it returns -1 or
1, never 0. The remark about `assert(a.id != b.id)` in
`LoopPrediction.sort_by_score` applies here as well. -/
def LoopPrediction.sort_by_rmsd (a b : LoopPrediction) : Int :=
  if a.rmsd ≠ b.rmsd then (if pyLt a.rmsd b.rmsd then -1 else 1)
  else if a.score ≠ b.score then (if a.score < b.score then -1 else 1)
  else (if a.id < b.id then -1 else 1)

/-- Spec-side description of the by-score order (§4.1 of the spec): primary
key score ascending, tie-break deviation ascending, final tie-break id
ascending. Stated with `pyLt` so that an absent deviation occupies the place
Python 2 gives it, below every number. -/
def specByScoreLt (a b : LoopPrediction) : Prop :=
  a.score < b.score ∨
    (a.score = b.score ∧ pyLt a.rmsd b.rmsd) ∨
    (a.score = b.score ∧ a.rmsd = b.rmsd ∧ a.id < b.id)

/-- Spec-side description of the by-deviation order (§4.1 of the spec):
primary key deviation ascending, tie-break score ascending, final tie-break id
ascending. -/
def specByRmsdLt (a b : LoopPrediction) : Prop :=
  pyLt a.rmsd b.rmsd ∨
    (a.rmsd = b.rmsd ∧ a.score < b.score) ∨
    (a.rmsd = b.rmsd ∧ a.score = b.score ∧ a.id < b.id)

/-- Insertion of a record into a list ordered by a Python-style two-argument
comparator, where `cmp a b < 0` means `a` sorts before `b`. -/
def insertCmp (cmp : LoopPrediction → LoopPrediction → Int) (x : LoopPrediction) :
    List LoopPrediction → List LoopPrediction
  | [] => [x]
  | y :: ys => if cmp x y < 0 then x :: y :: ys else y :: insertCmp cmp x ys

/-- Embeds `list.sort(cmp = ...)` as used by `LoopPredictionSet.sort_by_score`
and `LoopPredictionSet.sort_by_rmsd`. On the sets these methods are applied to,
ids are pairwise distinct, so the comparator is a strict total order and every
comparison sort — the source's stable sort included — produces the same,
uniquely determined output (`sortCmp_eq_of_perm` below); the embedding uses
insertion sort. -/
def sortCmp (cmp : LoopPrediction → LoopPrediction → Int) :
    List LoopPrediction → List LoopPrediction
  | [] => []
  | x :: xs => insertCmp cmp x (sortCmp cmp xs)

/-- Embeds Python dict assignment `m[k] = v` for an insertion-ordered
dictionary: an existing entry for `k` is overwritten in place, otherwise the
new entry is appended at the end. -/
def dictInsert (k : Int) (v : LoopPrediction) :
    List (Int × LoopPrediction) → List (Int × LoopPrediction)
  | [] => [(k, v)]
  | (k', v') :: rest => if k = k' then (k, v) :: rest else (k', v') :: dictInsert k v rest

/-- Embeds `m.get(k)` on a Python dictionary: the stored value, or `None`. -/
def dictGet (k : Int) : List (Int × LoopPrediction) → Option LoopPrediction
  | [] => none
  | (k', v') :: rest => if k = k' then some v' else dictGet k rest

/-- Keys of the modelled dictionary, in insertion order. -/
def dictKeys (m : List (Int × LoopPrediction)) : List Int :=
  m.map Prod.fst

/-- Removal of the entry for `k` (the key is unique in a dictionary, so at most
one entry is removed). -/
def dictDelete (k : Int) : List (Int × LoopPrediction) → List (Int × LoopPrediction)
  | [] => []
  | (k', v') :: rest => if k = k' then rest else (k', v') :: dictDelete k rest

/-- Embeds `del m[k]`, which raises `KeyError` when `k` is not a key. -/
def dictDeleteE (k : Int) (m : List (Int × LoopPrediction)) :
    Except PyError (List (Int × LoopPrediction)) :=
  if k ∈ dictKeys m then .ok (dictDelete k m) else .error .keyError

/-- Embeds `LoopPredictionSet.__init__`: an ordered list of predictions
(`self.loop_predictions`) plus an id-to-record dictionary
(`self.loop_prediction_map`). -/
structure LoopPredictionSet where
  loop_predictions : List LoopPrediction
  loop_prediction_map : List (Int × LoopPrediction)
  deriving DecidableEq

/-- Embeds the Python 2 equality test `id == lp` between an id and a
`LoopPrediction` instance, as evaluated by the membership tests
`id in self.loop_predictions` in `add` and `from_list`. `LoopPrediction`
defines no `__eq__`, so an int id never compares equal to a record instance:
the test is constantly false. -/
def pyEqIdRecord (_i : Int) (_lp : LoopPrediction) : Bool :=
  false

/-- Embeds the membership test `id in self.loop_predictions` used by the
asserts in `add` and `from_list`. The container is the list of records, not
the id map, so by `pyEqIdRecord` the test is always false and the asserts can
never fail — whence a duplicate id is never rejected. -/
def idInRecordList (i : Int) (l : List LoopPrediction) : Bool :=
  l.any (fun lp => pyEqIdRecord i lp)

/-- Embeds the static constructor `LoopPredictionSet.from_list`: each record is
appended to the sequence and entered into the dictionary. The source guards
each step with `assert(loop_prediction.id not in lps.loop_predictions)`, which
tests the id against the record list and therefore always passes (see
`idInRecordList`); being unfailing, the guard is dropped here (the `add`
embedding keeps its identical guard explicit). -/
def fromListStep (s : LoopPredictionSet) (lp : LoopPrediction) : LoopPredictionSet :=
  { loop_predictions := s.loop_predictions ++ [lp],
    loop_prediction_map := dictInsert lp.id lp s.loop_prediction_map }

/-- Embeds the loop of `LoopPredictionSet.from_list` as a fold of
`fromListStep` starting from the empty set. -/
def LoopPredictionSet.from_list (l : List LoopPrediction) : LoopPredictionSet :=
  l.foldl fromListStep ⟨[], []⟩

/-- Embeds `LoopPredictionSet.add`: build the record, append it to the
sequence, store it in the dictionary, and return it alongside the updated set.
The guard embeds `assert(id not in self.loop_predictions)`, which tests the id
against the record list — not the id map — and hence never fails
(`idInRecordList`): an id already present is appended again to the sequence
and its dictionary entry is overwritten. -/
def LoopPredictionSet.add (s : LoopPredictionSet) (id : Int) (score : ℚ)
    (pdb_id : Option String) (rmsd : Option ℚ) (pdb_path : Option String)
    (pdb_loop_residue_matrix : Option (List (ℚ × ℚ × ℚ))) :
    Except PyError (LoopPredictionSet × LoopPrediction) :=
  if idInRecordList id s.loop_predictions then .error .assertionError
  else
    let lp : LoopPrediction := ⟨id, score, pdb_id, rmsd, pdb_path, pdb_loop_residue_matrix⟩
    .ok ({ loop_predictions := s.loop_predictions ++ [lp],
           loop_prediction_map := dictInsert id lp s.loop_prediction_map }, lp)

/-- Folds `del self.loop_prediction_map[lp.id]` over the records to delete, as
in the loop of `LoopPredictionSet.truncate`. -/
def deleteAll : List LoopPrediction → List (Int × LoopPrediction) →
    Except PyError (List (Int × LoopPrediction))
  | [], m => .ok m
  | lp :: rest, m =>
    match dictDeleteE lp.id m with
    | .error e => .error e
    | .ok m' => deleteAll rest m'

/-- Embeds `LoopPredictionSet.truncate`: delete the ids of the records past
position `n` from the dictionary, keep the first `n` records of the sequence,
then run the defensive check
`assert(sorted(ids of sequence) == sorted(map keys))` — two integer lists have
equal sorted versions exactly when they are permutations of each other, which
is how the check is stated here. -/
def LoopPredictionSet.truncate (s : LoopPredictionSet) (n : Nat) :
    Except PyError LoopPredictionSet :=
  match deleteAll (s.loop_predictions.drop n) s.loop_prediction_map with
  | .error e => .error e
  | .ok m =>
    let kept := s.loop_predictions.take n
    if (kept.map LoopPrediction.id).Perm (dictKeys m)
    then .ok ⟨kept, m⟩
    else .error .assertionError

/-- Embeds `LoopPredictionSet.get`: dictionary lookup via `dict.get`, `none`
when the id is absent; never fails. -/
def LoopPredictionSet.get (s : LoopPredictionSet) (id : Int) : Option LoopPrediction :=
  dictGet id s.loop_prediction_map

/-- Embeds `LoopPredictionSet.sort_by_score`: in-place sort of the sequence
with the `LoopPrediction.sort_by_score` comparator; the dictionary is
untouched. -/
def LoopPredictionSet.sort_by_score (s : LoopPredictionSet) : LoopPredictionSet :=
  { s with loop_predictions := sortCmp LoopPrediction.sort_by_score s.loop_predictions }

/-- Embeds `LoopPredictionSet.sort_by_rmsd`: in-place sort of the sequence
with the `LoopPrediction.sort_by_rmsd` comparator; the dictionary is
untouched. -/
def LoopPredictionSet.sort_by_rmsd (s : LoopPredictionSet) : LoopPredictionSet :=
  { s with loop_predictions := sortCmp LoopPrediction.sort_by_rmsd s.loop_predictions }

/-- Embeds the counting loop of `LoopPredictionSet.fraction_with_rmsd_lt`: on
each record, first raise if its RMSD is `None` and `allow_failure` is unset,
then count it when `rmsd < x` (strict) or `rmsd <= x` (non-strict) under the
Python 2 ordering — under which a `None` RMSD that survived the first check
compares below `x` and is counted. -/
def fractionLoop (x : ℚ) (allow_failure strict : Bool) :
    List LoopPrediction → Nat → Except PyError Nat
  | [], c => .ok c
  | lp :: rest, c =>
    if lp.rmsd = none ∧ allow_failure = false then .error .missingData
    else if (strict = true ∧ pyLt lp.rmsd (some x)) ∨ (strict = false ∧ pyLe lp.rmsd (some x))
    then fractionLoop x allow_failure strict rest (c + 1)
    else fractionLoop x allow_failure strict rest c

/-- Embeds `LoopPredictionSet.fraction_with_rmsd_lt`: run the counting loop,
then return `float(c) / float(len(self.loop_predictions))` — a division that
raises `ZeroDivisionError` when the set is empty. -/
def LoopPredictionSet.fraction_with_rmsd_lt (s : LoopPredictionSet) (x : ℚ)
    (allow_failure strict : Bool) : Except PyError ℚ :=
  match fractionLoop x allow_failure strict s.loop_predictions 0 with
  | .error e => .error e
  | .ok c =>
    if s.loop_predictions.length = 0 then .error .zeroDivisionError
    else .ok ((c : ℚ) / (s.loop_predictions.length : ℚ))

/-- Embeds Python list indexing `l[key]` for an integer key: a negative key
counts from the end of the list; an index out of range on either side raises
the built-in `IndexError`. -/
def pyListGet (l : List LoopPrediction) (key : Int) : Except PyError LoopPrediction :=
  let i : Int := if key < 0 then key + l.length else key
  if h : 0 ≤ i ∧ i < l.length then
    .ok (l.get ⟨i.toNat, by omega⟩)
  else .error .indexErrorBuiltin

/-- Embeds the integer branch of `LoopPredictionSet.__getitem__`: an explicit
`IndexError` when `key >= len(self.loop_predictions)`, otherwise Python list
indexing (so negative keys count from the end, and a key below `-len` raises
the built-in `IndexError` of the list access instead). -/
def LoopPredictionSet.getItemInt (s : LoopPredictionSet) (key : Int) :
    Except PyError LoopPrediction :=
  if (s.loop_predictions.length : Int) ≤ key then .error .indexErrorExplicit
  else pyListGet s.loop_predictions key

/-- Embeds the slice branch of `LoopPredictionSet.__getitem__` for a slice
`[i:j]` with nonnegative bounds and step 1: `slice.indices` clamps the bounds
to the length (as `List.take` does), the records at positions `i ≤ p < j` are
collected in order, and `from_list` rebuilds them into a new, independent
`LoopPredictionSet`; the source set is not modified. -/
def LoopPredictionSet.getItemSlice (s : LoopPredictionSet) (i j : Nat) : LoopPredictionSet :=
  LoopPredictionSet.from_list ((s.loop_predictions.take j).drop i)

/-- Embeds the median selection of `extract_analysis_data`: after
`sort_by_score()` and `truncate(expectn)`, the median-by-score record is read
off as `loop_prediction_set[int(expectn / 2)]` (Python 2 integer division,
i.e. the floor). -/
def pipelineMedian (s : LoopPredictionSet) (expectn : Nat) :
    Except PyError LoopPrediction :=
  match (s.sort_by_score).truncate expectn with
  | .error e => .error e
  | .ok t => t.getItemInt ((expectn / 2 : Nat) : Int)

/-- Embeds the TopX linear scan of `extract_analysis_data`: starting from the
best-scoring record's `(rmsd, score)` pair, each record of the TopX subset
replaces the current pair when its RMSD is smaller, or equal with a smaller
score. -/
def topXScan : List LoopPrediction → Option ℚ × ℚ → Option ℚ × ℚ
  | [], acc => acc
  | s :: rest, (r, sc) =>
    if pyLt s.rmsd r ∨ (s.rmsd = r ∧ s.score < sc)
    then topXScan rest (s.rmsd, s.score)
    else topXScan rest (r, sc)

/-- Well-formedness invariant of a `LoopPredictionSet`, maintained by the
constructors and mutators on unique ids: ids in the sequence are pairwise
distinct, the dictionary keys are duplicate-free, the keys are — up to order —
exactly the ids of the sequence, and looking up a record's id in the
dictionary yields that record. -/
def LoopPredictionSet.WF (s : LoopPredictionSet) : Prop :=
  s.loop_predictions.Pairwise (fun a b => a.id ≠ b.id) ∧
  (dictKeys s.loop_prediction_map).Nodup ∧
  (dictKeys s.loop_prediction_map).Perm (s.loop_predictions.map LoopPrediction.id) ∧
  ∀ lp ∈ s.loop_predictions, dictGet lp.id s.loop_prediction_map = some lp

/-! Basic facts about the Python 2 value ordering. -/

theorem pyLt_irrefl (a : Option ℚ) : ¬ pyLt a a := by
  cases a <;> simp [pyLt]

theorem pyLt_trans {a b c : Option ℚ} : pyLt a b → pyLt b c → pyLt a c := by
  cases a <;> cases b <;> cases c <;> intro h1 h2 <;>
    first
    | exact h1.elim
    | exact h2.elim
    | trivial
    | exact lt_trans h1 h2

theorem pyLt_asymm {a b : Option ℚ} : pyLt a b → ¬ pyLt b a := by
  cases a <;> cases b <;> intro h1 h2 <;>
    first
    | exact h1
    | exact h2
    | exact lt_asymm h1 h2

theorem pyLt_trichotomy (a b : Option ℚ) : pyLt a b ∨ a = b ∨ pyLt b a := by
  cases a <;> cases b
  · exact Or.inr (Or.inl rfl)
  · exact Or.inl trivial
  · exact Or.inr (Or.inr trivial)
  · rename_i x y
    rcases lt_trichotomy x y with h | h | h
    · exact Or.inl h
    · exact Or.inr (Or.inl (by rw [h]))
    · exact Or.inr (Or.inr h)

theorem pyLe_iff {a b : Option ℚ} : pyLe a b ↔ pyLt a b ∨ a = b := by
  cases a <;> cases b
  · simp [pyLe, pyLt]
  · simp [pyLe, pyLt]
  · simp [pyLe, pyLt]
  · simp only [pyLe, pyLt, Option.some.injEq]
    exact le_iff_lt_or_eq

/-! Characterization of the two comparators as lexicographic strict orders,
and the strict-total-order properties of those orders. -/

theorem sort_by_score_lt_iff (a b : LoopPrediction) :
    LoopPrediction.sort_by_score a b < 0 ↔ specByScoreLt a b := by
  unfold LoopPrediction.sort_by_score specByScoreLt
  split_ifs with h1 h2 h3 h4 h5
  · exact iff_of_true (by norm_num) (Or.inl h2)
  · refine iff_of_false (by norm_num) ?_
    rintro (h | ⟨h, h'⟩ | ⟨h, h', h''⟩)
    · exact h2 h
    · exact h1 h
    · exact h1 h
  · exact iff_of_true (by norm_num) (Or.inr (Or.inl ⟨of_not_not h1, h4⟩))
  · refine iff_of_false (by norm_num) ?_
    rintro (h | ⟨h, h'⟩ | ⟨h, h', h''⟩)
    · exact absurd h (of_not_not h1 ▸ lt_irrefl _)
    · exact h4 h'
    · exact h3 h'
  · exact iff_of_true (by norm_num) (Or.inr (Or.inr ⟨of_not_not h1, of_not_not h3, h5⟩))
  · refine iff_of_false (by norm_num) ?_
    rintro (h | ⟨h, h'⟩ | ⟨h, h', h''⟩)
    · exact absurd h (of_not_not h1 ▸ lt_irrefl _)
    · exact pyLt_irrefl _ (of_not_not h3 ▸ h')
    · exact h5 h''

theorem sort_by_rmsd_lt_iff (a b : LoopPrediction) :
    LoopPrediction.sort_by_rmsd a b < 0 ↔ specByRmsdLt a b := by
  unfold LoopPrediction.sort_by_rmsd specByRmsdLt
  split_ifs with h1 h2 h3 h4 h5
  · exact iff_of_true (by norm_num) (Or.inl h2)
  · refine iff_of_false (by norm_num) ?_
    rintro (h | ⟨h, h'⟩ | ⟨h, h', h''⟩)
    · exact h2 h
    · exact h1 h
    · exact h1 h
  · exact iff_of_true (by norm_num) (Or.inr (Or.inl ⟨of_not_not h1, h4⟩))
  · refine iff_of_false (by norm_num) ?_
    rintro (h | ⟨h, h'⟩ | ⟨h, h', h''⟩)
    · exact pyLt_irrefl _ (of_not_not h1 ▸ h)
    · exact h4 h'
    · exact h3 h'
  · exact iff_of_true (by norm_num) (Or.inr (Or.inr ⟨of_not_not h1, of_not_not h3, h5⟩))
  · refine iff_of_false (by norm_num) ?_
    rintro (h | ⟨h, h'⟩ | ⟨h, h', h''⟩)
    · exact pyLt_irrefl _ (of_not_not h1 ▸ h)
    · exact absurd h' (of_not_not h3 ▸ lt_irrefl _)
    · exact h5 h''

theorem specByScoreLt_trans {a b c : LoopPrediction} :
    specByScoreLt a b → specByScoreLt b c → specByScoreLt a c := by
  rintro (h1 | ⟨e1, h1⟩ | ⟨e1, f1, h1⟩) (h2 | ⟨e2, h2⟩ | ⟨e2, f2, h2⟩)
  · exact Or.inl (lt_trans h1 h2)
  · exact Or.inl (by rw [← e2]; exact h1)
  · exact Or.inl (by rw [← e2]; exact h1)
  · exact Or.inl (by rw [e1]; exact h2)
  · exact Or.inr (Or.inl ⟨e1.trans e2, pyLt_trans h1 h2⟩)
  · exact Or.inr (Or.inl ⟨e1.trans e2, by rw [← f2]; exact h1⟩)
  · exact Or.inl (by rw [e1]; exact h2)
  · exact Or.inr (Or.inl ⟨e1.trans e2, by rw [f1]; exact h2⟩)
  · exact Or.inr (Or.inr ⟨e1.trans e2, f1.trans f2, lt_trans h1 h2⟩)

theorem specByScoreLt_asymm {a b : LoopPrediction} :
    specByScoreLt a b → ¬ specByScoreLt b a := by
  rintro (h1 | ⟨e1, h1⟩ | ⟨e1, f1, h1⟩) (h2 | ⟨e2, h2⟩ | ⟨e2, f2, h2⟩)
  · exact lt_asymm h1 h2
  · exact absurd h1 (e2 ▸ lt_irrefl _)
  · exact absurd h1 (e2 ▸ lt_irrefl _)
  · exact absurd h2 (e1 ▸ lt_irrefl _)
  · exact pyLt_asymm h1 h2
  · exact pyLt_irrefl _ (f2 ▸ h1)
  · exact absurd h2 (e1 ▸ lt_irrefl _)
  · exact pyLt_irrefl _ (f1 ▸ h2)
  · exact lt_asymm h1 h2

theorem specByScoreLt_connex {a b : LoopPrediction} (h : a.id ≠ b.id) :
    specByScoreLt a b ∨ specByScoreLt b a := by
  rcases lt_trichotomy a.score b.score with hs | hs | hs
  · exact Or.inl (Or.inl hs)
  · rcases pyLt_trichotomy a.rmsd b.rmsd with hr | hr | hr
    · exact Or.inl (Or.inr (Or.inl ⟨hs, hr⟩))
    · rcases lt_trichotomy a.id b.id with hi | hi | hi
      · exact Or.inl (Or.inr (Or.inr ⟨hs, hr, hi⟩))
      · exact absurd hi h
      · exact Or.inr (Or.inr (Or.inr ⟨hs.symm, hr.symm, hi⟩))
    · exact Or.inr (Or.inr (Or.inl ⟨hs.symm, hr⟩))
  · exact Or.inr (Or.inl hs)

theorem specByRmsdLt_trans {a b c : LoopPrediction} :
    specByRmsdLt a b → specByRmsdLt b c → specByRmsdLt a c := by
  rintro (h1 | ⟨e1, h1⟩ | ⟨e1, f1, h1⟩) (h2 | ⟨e2, h2⟩ | ⟨e2, f2, h2⟩)
  · exact Or.inl (pyLt_trans h1 h2)
  · exact Or.inl (by rw [← e2]; exact h1)
  · exact Or.inl (by rw [← e2]; exact h1)
  · exact Or.inl (by rw [e1]; exact h2)
  · exact Or.inr (Or.inl ⟨e1.trans e2, lt_trans h1 h2⟩)
  · exact Or.inr (Or.inl ⟨e1.trans e2, by rw [← f2]; exact h1⟩)
  · exact Or.inl (by rw [e1]; exact h2)
  · exact Or.inr (Or.inl ⟨e1.trans e2, by rw [f1]; exact h2⟩)
  · exact Or.inr (Or.inr ⟨e1.trans e2, f1.trans f2, lt_trans h1 h2⟩)

theorem specByRmsdLt_asymm {a b : LoopPrediction} :
    specByRmsdLt a b → ¬ specByRmsdLt b a := by
  rintro (h1 | ⟨e1, h1⟩ | ⟨e1, f1, h1⟩) (h2 | ⟨e2, h2⟩ | ⟨e2, f2, h2⟩)
  · exact pyLt_asymm h1 h2
  · exact pyLt_irrefl _ (e2 ▸ h1)
  · exact pyLt_irrefl _ (e2 ▸ h1)
  · exact pyLt_irrefl _ (e1 ▸ h2)
  · exact lt_asymm h1 h2
  · exact absurd h1 (f2 ▸ lt_irrefl _)
  · exact pyLt_irrefl _ (e1 ▸ h2)
  · exact absurd h2 (f1 ▸ lt_irrefl _)
  · exact lt_asymm h1 h2

theorem specByRmsdLt_connex {a b : LoopPrediction} (h : a.id ≠ b.id) :
    specByRmsdLt a b ∨ specByRmsdLt b a := by
  rcases pyLt_trichotomy a.rmsd b.rmsd with hr | hr | hr
  · exact Or.inl (Or.inl hr)
  · rcases lt_trichotomy a.score b.score with hs | hs | hs
    · exact Or.inl (Or.inr (Or.inl ⟨hr, hs⟩))
    · rcases lt_trichotomy a.id b.id with hi | hi | hi
      · exact Or.inl (Or.inr (Or.inr ⟨hr, hs, hi⟩))
      · exact absurd hi h
      · exact Or.inr (Or.inr (Or.inr ⟨hr.symm, hs.symm, hi⟩))
    · exact Or.inr (Or.inr (Or.inl ⟨hr.symm, hs⟩))
  · exact Or.inr (Or.inl hr)

/-! Generic facts about sorting with a two-argument comparator. -/

theorem insertCmp_perm (cmp : LoopPrediction → LoopPrediction → Int)
    (x : LoopPrediction) (l : List LoopPrediction) :
    (insertCmp cmp x l).Perm (x :: l) := by
  induction l with
  | nil => exact List.Perm.refl _
  | cons y ys ih =>
    simp only [insertCmp]
    split_ifs with h
    · exact List.Perm.refl _
    · exact (ih.cons y).trans (List.Perm.swap x y ys)

theorem sortCmp_perm (cmp : LoopPrediction → LoopPrediction → Int)
    (l : List LoopPrediction) : (sortCmp cmp l).Perm l := by
  induction l with
  | nil => exact List.Perm.refl _
  | cons x xs ih => exact (insertCmp_perm cmp x (sortCmp cmp xs)).trans (ih.cons x)

theorem insertCmp_pairwise (cmp : LoopPrediction → LoopPrediction → Int)
    (htrans : ∀ a b c, cmp a b < 0 → cmp b c < 0 → cmp a c < 0)
    (x : LoopPrediction) (l : List LoopPrediction)
    (hconn : ∀ y ∈ l, cmp x y < 0 ∨ cmp y x < 0)
    (hl : l.Pairwise (fun a b => cmp a b < 0)) :
    (insertCmp cmp x l).Pairwise (fun a b => cmp a b < 0) := by
  induction l with
  | nil => simp [insertCmp]
  | cons y ys ih =>
    rcases List.pairwise_cons.mp hl with ⟨hy, hys⟩
    simp only [insertCmp]
    split_ifs with h
    · refine List.pairwise_cons.mpr ⟨?_, hl⟩
      intro z hz
      rcases List.mem_cons.mp hz with rfl | hz'
      · exact h
      · exact htrans x y z h (hy z hz')
    · refine List.pairwise_cons.mpr
        ⟨?_, ih (fun y' hy' => hconn y' (List.mem_cons_of_mem _ hy')) hys⟩
      intro z hz
      rcases List.mem_cons.mp ((insertCmp_perm cmp x ys).mem_iff.mp hz) with rfl | hz'
      · rcases hconn y (List.mem_cons_self y ys) with h' | h'
        · exact absurd h' h
        · exact h'
      · exact hy z hz'

theorem sortCmp_pairwise (cmp : LoopPrediction → LoopPrediction → Int)
    (htrans : ∀ a b c, cmp a b < 0 → cmp b c < 0 → cmp a c < 0)
    (l : List LoopPrediction)
    (hconn : ∀ a ∈ l, ∀ b ∈ l, a ≠ b → cmp a b < 0 ∨ cmp b a < 0)
    (hnd : l.Nodup) :
    (sortCmp cmp l).Pairwise (fun a b => cmp a b < 0) := by
  induction l with
  | nil => simp [sortCmp]
  | cons x xs ih =>
    simp only [sortCmp]
    refine insertCmp_pairwise cmp htrans x (sortCmp cmp xs) ?_ ?_
    · intro y hy
      have hyxs : y ∈ xs := (sortCmp_perm cmp xs).mem_iff.mp hy
      have hxy : x ≠ y := fun e => (List.nodup_cons.mp hnd).1 (e ▸ hyxs)
      exact hconn x (List.mem_cons_self x xs) y (List.mem_cons_of_mem x hyxs) hxy
    · exact ih
        (fun a ha b hb hab =>
          hconn a (List.mem_cons_of_mem _ ha) b (List.mem_cons_of_mem _ hb) hab)
        (List.nodup_cons.mp hnd).2

theorem sortCmp_eq_of_perm (cmp : LoopPrediction → LoopPrediction → Int)
    (hasymm : ∀ a b, cmp a b < 0 → ¬ cmp b a < 0)
    (htrans : ∀ a b c, cmp a b < 0 → cmp b c < 0 → cmp a c < 0)
    {l₁ l₂ : List LoopPrediction} (hp : l₁.Perm l₂)
    (hconn : ∀ a ∈ l₁, ∀ b ∈ l₁, a ≠ b → cmp a b < 0 ∨ cmp b a < 0)
    (hnd : l₁.Nodup) :
    sortCmp cmp l₁ = sortCmp cmp l₂ := by
  haveI : IsAntisymm LoopPrediction (fun a b => cmp a b < 0) :=
    ⟨fun a b h1 h2 => absurd h2 (hasymm a b h1)⟩
  have hperm : (sortCmp cmp l₁).Perm (sortCmp cmp l₂) :=
    ((sortCmp_perm cmp l₁).trans hp).trans (sortCmp_perm cmp l₂).symm
  have hs1 := sortCmp_pairwise cmp htrans l₁ hconn hnd
  have hs2 := sortCmp_pairwise cmp htrans l₂
    (fun a ha b hb hab => hconn a (hp.mem_iff.mpr ha) b (hp.mem_iff.mpr hb) hab)
    (hp.nodup_iff.mp hnd)
  exact List.eq_of_perm_of_sorted hperm hs1 hs2

/-! Instantiation of the generic sorting facts for the two comparators, on
lists whose ids are pairwise distinct. -/

theorem score_cmp_trans :
    ∀ a b c : LoopPrediction, LoopPrediction.sort_by_score a b < 0 →
      LoopPrediction.sort_by_score b c < 0 → LoopPrediction.sort_by_score a c < 0 :=
  fun a b c h1 h2 => (sort_by_score_lt_iff a c).mpr
    (specByScoreLt_trans ((sort_by_score_lt_iff a b).mp h1) ((sort_by_score_lt_iff b c).mp h2))

theorem score_cmp_asymm :
    ∀ a b : LoopPrediction, LoopPrediction.sort_by_score a b < 0 →
      ¬ LoopPrediction.sort_by_score b a < 0 :=
  fun a b h1 h2 =>
    specByScoreLt_asymm ((sort_by_score_lt_iff a b).mp h1) ((sort_by_score_lt_iff b a).mp h2)

theorem rmsd_cmp_trans :
    ∀ a b c : LoopPrediction, LoopPrediction.sort_by_rmsd a b < 0 →
      LoopPrediction.sort_by_rmsd b c < 0 → LoopPrediction.sort_by_rmsd a c < 0 :=
  fun a b c h1 h2 => (sort_by_rmsd_lt_iff a c).mpr
    (specByRmsdLt_trans ((sort_by_rmsd_lt_iff a b).mp h1) ((sort_by_rmsd_lt_iff b c).mp h2))

theorem rmsd_cmp_asymm :
    ∀ a b : LoopPrediction, LoopPrediction.sort_by_rmsd a b < 0 →
      ¬ LoopPrediction.sort_by_rmsd b a < 0 :=
  fun a b h1 h2 =>
    specByRmsdLt_asymm ((sort_by_rmsd_lt_iff a b).mp h1) ((sort_by_rmsd_lt_iff b a).mp h2)

/-- Ids pairwise distinct along a list makes the list duplicate-free. -/
theorem nodup_of_pairwise_ids {l : List LoopPrediction}
    (h : l.Pairwise fun a b => a.id ≠ b.id) : l.Nodup :=
  h.imp (fun hid e => hid (by rw [e]))

theorem pairwise_ids_symm :
    Symmetric (fun a b : LoopPrediction => a.id ≠ b.id) :=
  fun _ _ h => Ne.symm h

theorem score_cmp_conn_of_pairwise_ids {l : List LoopPrediction}
    (h : l.Pairwise fun a b => a.id ≠ b.id) :
    ∀ a ∈ l, ∀ b ∈ l, a ≠ b →
      LoopPrediction.sort_by_score a b < 0 ∨ LoopPrediction.sort_by_score b a < 0 := by
  intro a ha b hb hab
  have hid : a.id ≠ b.id := h.forall pairwise_ids_symm ha hb hab
  rcases specByScoreLt_connex hid with h' | h'
  · exact Or.inl ((sort_by_score_lt_iff a b).mpr h')
  · exact Or.inr ((sort_by_score_lt_iff b a).mpr h')

theorem rmsd_cmp_conn_of_pairwise_ids {l : List LoopPrediction}
    (h : l.Pairwise fun a b => a.id ≠ b.id) :
    ∀ a ∈ l, ∀ b ∈ l, a ≠ b →
      LoopPrediction.sort_by_rmsd a b < 0 ∨ LoopPrediction.sort_by_rmsd b a < 0 := by
  intro a ha b hb hab
  have hid : a.id ≠ b.id := h.forall pairwise_ids_symm ha hb hab
  rcases specByRmsdLt_connex hid with h' | h'
  · exact Or.inl ((sort_by_rmsd_lt_iff a b).mpr h')
  · exact Or.inr ((sort_by_rmsd_lt_iff b a).mpr h')

/-- C3: each comparator is a strict total order over records with distinct
ids, and follows its tie-break chain — `sort_by_score` puts `a` before `b`
(returns a negative value) exactly when `a` precedes `b` by score ascending,
then deviation ascending, then id ascending, and `sort_by_rmsd` exactly when
`a` precedes `b` by deviation ascending, then score ascending, then id
ascending; both comparators are asymmetric and transitive, and relate every
pair of records with distinct ids one way or the other. -/
theorem C3_comparators_are_strict_total_orders :
    (∀ a b : LoopPrediction,
      LoopPrediction.sort_by_score a b < 0 ↔ specByScoreLt a b) ∧
    (∀ a b : LoopPrediction,
      LoopPrediction.sort_by_rmsd a b < 0 ↔ specByRmsdLt a b) ∧
    (∀ a b : LoopPrediction,
      LoopPrediction.sort_by_score a b < 0 → ¬ LoopPrediction.sort_by_score b a < 0) ∧
    (∀ a b : LoopPrediction,
      LoopPrediction.sort_by_rmsd a b < 0 → ¬ LoopPrediction.sort_by_rmsd b a < 0) ∧
    (∀ a b c : LoopPrediction,
      LoopPrediction.sort_by_score a b < 0 → LoopPrediction.sort_by_score b c < 0 →
        LoopPrediction.sort_by_score a c < 0) ∧
    (∀ a b c : LoopPrediction,
      LoopPrediction.sort_by_rmsd a b < 0 → LoopPrediction.sort_by_rmsd b c < 0 →
        LoopPrediction.sort_by_rmsd a c < 0) ∧
    (∀ a b : LoopPrediction, a.id ≠ b.id →
      LoopPrediction.sort_by_score a b < 0 ∨ LoopPrediction.sort_by_score b a < 0) ∧
    (∀ a b : LoopPrediction, a.id ≠ b.id →
      LoopPrediction.sort_by_rmsd a b < 0 ∨ LoopPrediction.sort_by_rmsd b a < 0) :=
  ⟨sort_by_score_lt_iff, sort_by_rmsd_lt_iff, score_cmp_asymm, rmsd_cmp_asymm,
    score_cmp_trans, rmsd_cmp_trans,
    fun a b h => by
      rcases specByScoreLt_connex h with h' | h'
      · exact Or.inl ((sort_by_score_lt_iff a b).mpr h')
      · exact Or.inr ((sort_by_score_lt_iff b a).mpr h'),
    fun a b h => by
      rcases specByRmsdLt_connex h with h' | h'
      · exact Or.inl ((sort_by_rmsd_lt_iff a b).mpr h')
      · exact Or.inr ((sort_by_rmsd_lt_iff b a).mpr h')⟩

/-- Witness for C3 at two concrete records that agree on score and deviation
but have distinct ids: the comparators relate them one way or the other. -/
theorem C3_comparators_are_strict_total_orders_witness :
    (LoopPrediction.sort_by_score ⟨1, 2, none, some 1, none, none⟩
        ⟨2, 2, none, some 1, none, none⟩ < 0 ∨
      LoopPrediction.sort_by_score ⟨2, 2, none, some 1, none, none⟩
        ⟨1, 2, none, some 1, none, none⟩ < 0) ∧
    (LoopPrediction.sort_by_rmsd ⟨1, 2, none, some 1, none, none⟩
        ⟨2, 2, none, some 1, none, none⟩ < 0 ∨
      LoopPrediction.sort_by_rmsd ⟨2, 2, none, some 1, none, none⟩
        ⟨1, 2, none, some 1, none, none⟩ < 0) :=
  ⟨C3_comparators_are_strict_total_orders.2.2.2.2.2.2.1 _ _ (by decide),
    C3_comparators_are_strict_total_orders.2.2.2.2.2.2.2 _ _ (by decide)⟩

/-- C4: on a set with pairwise-distinct ids whose records all carry a
deviation, sorting by score, then by deviation, then by score again returns
exactly the score-sorted set, and the score-sorted order is canonical — any
set holding a permutation of the same records sorts by score to the same
sequence. -/
theorem C4_sort_by_score_canonical :
    ∀ s : LoopPredictionSet,
      s.loop_predictions.Pairwise (fun a b => a.id ≠ b.id) →
      (∀ lp ∈ s.loop_predictions, lp.rmsd ≠ none) →
      ((s.sort_by_score).sort_by_rmsd).sort_by_score = s.sort_by_score ∧
      ∀ t : LoopPredictionSet, t.loop_predictions.Perm s.loop_predictions →
        (t.sort_by_score).loop_predictions = (s.sort_by_score).loop_predictions := by
  intro s hids _hrmsd
  have hperm1 : (sortCmp LoopPrediction.sort_by_rmsd
      (sortCmp LoopPrediction.sort_by_score s.loop_predictions)).Perm s.loop_predictions :=
    (sortCmp_perm _ _).trans (sortCmp_perm _ _)
  constructor
  · have hl : sortCmp LoopPrediction.sort_by_score
        (sortCmp LoopPrediction.sort_by_rmsd
          (sortCmp LoopPrediction.sort_by_score s.loop_predictions))
        = sortCmp LoopPrediction.sort_by_score s.loop_predictions :=
      sortCmp_eq_of_perm _ score_cmp_asymm score_cmp_trans hperm1
        (score_cmp_conn_of_pairwise_ids
          ((hperm1.pairwise_iff (fun h' => Ne.symm h')).mpr hids))
        (hperm1.nodup_iff.mpr (nodup_of_pairwise_ids hids))
    simp only [LoopPredictionSet.sort_by_score, LoopPredictionSet.sort_by_rmsd]
    rw [hl]
  · intro t ht
    simp only [LoopPredictionSet.sort_by_score]
    exact sortCmp_eq_of_perm _ score_cmp_asymm score_cmp_trans ht
      (score_cmp_conn_of_pairwise_ids ((ht.pairwise_iff (fun h' => Ne.symm h')).mpr hids))
      (ht.nodup_iff.mpr (nodup_of_pairwise_ids hids))

/-- Witness for C4 at a concrete three-record set (two equal scores broken by
deviation): score-deviation-score sorting equals score sorting once. -/
theorem C4_sort_by_score_canonical_witness :
    ((LoopPredictionSet.mk
        [⟨1, 3, none, some 2, none, none⟩, ⟨2, 1, none, some 5, none, none⟩,
          ⟨3, 1, none, some 4, none, none⟩] []).sort_by_score.sort_by_rmsd).sort_by_score
      = (LoopPredictionSet.mk
        [⟨1, 3, none, some 2, none, none⟩, ⟨2, 1, none, some 5, none, none⟩,
          ⟨3, 1, none, some 4, none, none⟩] []).sort_by_score :=
  (C4_sort_by_score_canonical _ (by decide) (by decide)).1

/-! Facts about the dictionary model. -/

theorem dictKeys_dictDelete (k : Int) (m : List (Int × LoopPrediction)) :
    dictKeys (dictDelete k m) = (dictKeys m).erase k := by
  induction m with
  | nil => rfl
  | cons kv rest ih =>
    obtain ⟨k', v'⟩ := kv
    by_cases h : k = k'
    · subst h
      simp [dictDelete, dictKeys, List.erase_cons_head]
    · have h' : ¬ (k' == k) := by simp [Ne.symm h]
      simp only [dictDelete, if_neg h, dictKeys, List.map_cons]
      rw [List.erase_cons_tail h']
      simp only [dictKeys] at ih
      rw [ih]

theorem dictGet_dictDelete_ne {k kd : Int} (m : List (Int × LoopPrediction))
    (h : k ≠ kd) : dictGet k (dictDelete kd m) = dictGet k m := by
  induction m with
  | nil => rfl
  | cons kv rest ih =>
    obtain ⟨k', v'⟩ := kv
    by_cases h1 : kd = k'
    · subst h1
      simp [dictDelete, dictGet, h]
    · simp only [dictDelete, if_neg h1, dictGet]
      by_cases h2 : k = k'
      · simp [if_pos h2]
      · simp [if_neg h2, ih]

theorem dictInsert_of_not_mem {k : Int} {m : List (Int × LoopPrediction)}
    (h : k ∉ dictKeys m) (v : LoopPrediction) :
    dictInsert k v m = m ++ [(k, v)] := by
  induction m with
  | nil => rfl
  | cons kv rest ih =>
    obtain ⟨k', v'⟩ := kv
    simp only [dictKeys, List.map_cons, List.mem_cons, not_or] at h
    simp only [dictInsert, if_neg h.1, List.cons_append]
    rw [ih h.2]

theorem dictGet_mapSelf {l : List LoopPrediction}
    (h : l.Pairwise fun a b => a.id ≠ b.id) {lp : LoopPrediction} (hlp : lp ∈ l) :
    dictGet lp.id (l.map (fun q => (q.id, q))) = some lp := by
  induction l with
  | nil => cases hlp
  | cons q rest ih =>
    rcases List.mem_cons.mp hlp with rfl | hmem
    · simp [dictGet]
    · have hne : lp.id ≠ q.id := Ne.symm ((List.pairwise_cons.mp h).1 lp hmem)
      simp only [List.map_cons, dictGet, if_neg hne]
      exact ih (List.pairwise_cons.mp h).2 hmem

/-! Characterization of `from_list`. -/

theorem foldl_fromListStep_list (l : List LoopPrediction) :
    ∀ s : LoopPredictionSet,
      (List.foldl fromListStep s l).loop_predictions = s.loop_predictions ++ l := by
  induction l with
  | nil => intro s; simp
  | cons lp rest ih =>
    intro s
    rw [List.foldl_cons, ih]
    simp [fromListStep]

/-- The sequence of a set built by `from_list` is exactly the input list, with
no condition on ids (the source's per-record assert always passes, see
`idInRecordList`). -/
theorem from_list_loop_predictions (l : List LoopPrediction) :
    (LoopPredictionSet.from_list l).loop_predictions = l := by
  unfold LoopPredictionSet.from_list
  rw [foldl_fromListStep_list]
  simp

theorem foldl_fromListStep_eq (l : List LoopPrediction) :
    ∀ s : LoopPredictionSet,
      (∀ lp ∈ l, lp.id ∉ dictKeys s.loop_prediction_map) →
      l.Pairwise (fun a b => a.id ≠ b.id) →
      List.foldl fromListStep s l
        = ⟨s.loop_predictions ++ l,
            s.loop_prediction_map ++ l.map (fun lp => (lp.id, lp))⟩ := by
  induction l with
  | nil => intro s _ _; simp
  | cons lp rest ih =>
    intro s hnm hpw
    rw [List.foldl_cons]
    have hstep : fromListStep s lp
        = ⟨s.loop_predictions ++ [lp], s.loop_prediction_map ++ [(lp.id, lp)]⟩ := by
      simp [fromListStep, dictInsert_of_not_mem (hnm lp (List.mem_cons_self _ _))]
    rw [hstep, ih ⟨s.loop_predictions ++ [lp], s.loop_prediction_map ++ [(lp.id, lp)]⟩ ?_
      (List.pairwise_cons.mp hpw).2]
    · simp
    · intro q hq
      simp only [dictKeys, List.map_append, List.map_cons, List.mem_append, not_or]
      constructor
      · exact hnm q (List.mem_cons_of_mem _ hq)
      · have : lp.id ≠ q.id := (List.pairwise_cons.mp hpw).1 q hq
        simp [Ne.symm this]

/-- On a list with pairwise-distinct ids, `from_list` produces exactly the list
together with the dictionary holding each record under its id, in order. -/
theorem from_list_eq {l : List LoopPrediction}
    (h : l.Pairwise fun a b => a.id ≠ b.id) :
    LoopPredictionSet.from_list l = ⟨l, l.map (fun lp => (lp.id, lp))⟩ := by
  unfold LoopPredictionSet.from_list
  rw [foldl_fromListStep_eq l ⟨[], []⟩ (by simp [dictKeys]) h]
  simp

/-! The deletion loop of `truncate` and its effect on the dictionary. -/

theorem deleteAll_ok (del : List LoopPrediction) :
    ∀ m : List (Int × LoopPrediction),
      (∀ lp ∈ del, lp.id ∈ dictKeys m) →
      del.Pairwise (fun a b => a.id ≠ b.id) →
      ∃ m', deleteAll del m = .ok m' ∧
        dictKeys m' = (dictKeys m).diff (del.map LoopPrediction.id) ∧
        ∀ k : Int, k ∉ del.map LoopPrediction.id → dictGet k m' = dictGet k m := by
  induction del with
  | nil =>
    intro m _ _
    exact ⟨m, rfl, by simp, fun _ _ => rfl⟩
  | cons lp rest ih =>
    intro m hmem hpw
    have hin : lp.id ∈ dictKeys m := hmem lp (List.mem_cons_self _ _)
    have hstep : dictDeleteE lp.id m = .ok (dictDelete lp.id m) := by
      simp [dictDeleteE, hin]
    have hkeys1 : dictKeys (dictDelete lp.id m) = (dictKeys m).erase lp.id :=
      dictKeys_dictDelete _ _
    rcases List.pairwise_cons.mp hpw with ⟨hhead, htail⟩
    have hmem' : ∀ q ∈ rest, q.id ∈ dictKeys (dictDelete lp.id m) := by
      intro q hq
      rw [hkeys1]
      exact (List.mem_erase_of_ne (Ne.symm (hhead q hq))).mpr
        (hmem q (List.mem_cons_of_mem _ hq))
    rcases ih (dictDelete lp.id m) hmem' htail with ⟨m', he, hk, hg⟩
    refine ⟨m', ?_, ?_, ?_⟩
    · simp only [deleteAll, hstep]
      exact he
    · rw [hk, hkeys1, List.map_cons, List.diff_cons]
    · intro k hkmem
      have h1 : k ∉ rest.map LoopPrediction.id := fun hx =>
        hkmem (List.mem_cons_of_mem _ hx)
      have h2 : k ≠ lp.id := fun e => hkmem (by rw [List.map_cons, e]; exact List.mem_cons_self _ _)
      rw [hg k h1, dictGet_dictDelete_ne _ h2]

/-- Erasing, in order, the members of the second half of a duplicate-free
concatenation leaves exactly the first half. -/
theorem diff_append_self (B : List Int) :
    ∀ A : List Int, (A ++ B).Nodup → (A ++ B).diff B = A := by
  induction B with
  | nil => intro A _; simp
  | cons b B' ih =>
    intro A h
    rcases List.nodup_append.mp h with ⟨ndA, ndB, disj⟩
    have hbA : b ∉ A := fun hbA => disj hbA (List.mem_cons_self _ _)
    rw [List.diff_cons, List.erase_append_right _ hbA, List.erase_cons_head]
    exact ih A (List.nodup_append.mpr
      ⟨ndA, (List.nodup_cons.mp ndB).2,
        fun a ha hb => disj ha (List.mem_cons_of_mem _ hb)⟩)

/-- Core specification of `LoopPredictionSet.truncate` on a well-formed set:
it succeeds (both the `del` statements and the defensive sequence-vs-mapping
check), keeps the first `n` records, removes exactly the discarded ids from
the dictionary, and preserves well-formedness. -/
theorem truncate_spec (s : LoopPredictionSet) (n : Nat) (hwf : s.WF) :
    ∃ s' : LoopPredictionSet,
      s.truncate n = .ok s' ∧
      s'.loop_predictions = s.loop_predictions.take n ∧
      (dictKeys s'.loop_prediction_map).Perm
        ((s.loop_predictions.take n).map LoopPrediction.id) ∧
      s'.WF := by
  obtain ⟨hpw, hknd, hkperm, hget⟩ := hwf
  have hlnd : s.loop_predictions.Nodup := nodup_of_pairwise_ids hpw
  have hids_nodup : (s.loop_predictions.map LoopPrediction.id).Nodup :=
    List.Nodup.map_on
      (fun x hx y hy e => by
        by_contra hne
        exact hpw.forall pairwise_ids_symm hx hy hne e)
      hlnd
  have hdel_mem : ∀ lp ∈ s.loop_predictions.drop n,
      lp.id ∈ dictKeys s.loop_prediction_map := by
    intro lp hlp
    have hmem : lp ∈ s.loop_predictions := (List.drop_sublist n _).subset hlp
    exact hkperm.mem_iff.mpr (List.mem_map_of_mem LoopPrediction.id hmem)
  have hdel_pw : (s.loop_predictions.drop n).Pairwise (fun a b => a.id ≠ b.id) :=
    hpw.sublist (List.drop_sublist n _)
  rcases deleteAll_ok (s.loop_predictions.drop n) s.loop_prediction_map hdel_mem hdel_pw
    with ⟨m', he, hk, hg⟩
  have h2 : s.loop_predictions.map LoopPrediction.id
      = (s.loop_predictions.take n).map LoopPrediction.id
        ++ (s.loop_predictions.drop n).map LoopPrediction.id := by
    rw [← List.map_append, List.take_append_drop]
  have h3 : ((s.loop_predictions.take n).map LoopPrediction.id
        ++ (s.loop_predictions.drop n).map LoopPrediction.id).diff
        ((s.loop_predictions.drop n).map LoopPrediction.id)
      = (s.loop_predictions.take n).map LoopPrediction.id :=
    diff_append_self _ _ (by rw [← h2]; exact hids_nodup)
  have hkeys_perm : (dictKeys m').Perm
      ((s.loop_predictions.take n).map LoopPrediction.id) := by
    rw [hk]
    refine (hkperm.diff_right _).trans ?_
    rw [h2, h3]
  have hsplit : ((s.loop_predictions.take n) ++ (s.loop_predictions.drop n)).Pairwise
      (fun a b => a.id ≠ b.id) := by
    rw [List.take_append_drop]
    exact hpw
  refine ⟨⟨s.loop_predictions.take n, m'⟩, ?_, rfl, hkeys_perm, ?_, ?_, hkeys_perm, ?_⟩
  · simp only [LoopPredictionSet.truncate, he]
    rw [if_pos hkeys_perm.symm]
  · exact hpw.sublist (List.take_sublist n _)
  · rw [hk]
    exact hknd.diff
  · intro lp hlp
    have hmem_l : lp ∈ s.loop_predictions := (List.take_sublist n _).subset hlp
    have hnotdrop : lp.id ∉ (s.loop_predictions.drop n).map LoopPrediction.id := by
      intro hmem
      rcases List.mem_map.mp hmem with ⟨q, hq, he'⟩
      exact (List.pairwise_append.mp hsplit).2.2 lp hlp q hq he'.symm
    rw [hg lp.id hnotdrop]
    exact hget lp hmem_l

/-- Decidability of the well-formedness invariant, used to discharge it on
concrete sets. -/
instance (s : LoopPredictionSet) : Decidable s.WF := by
  unfold LoopPredictionSet.WF
  infer_instance

/-- C5: on a well-formed prediction set (unique ids, sequence and dictionary
in agreement), `truncate n` succeeds — the defensive sequence-versus-mapping
check never fires — keeps exactly the first `n` records of the current order
(so the length becomes `min n originalLength`), removes every discarded id
from the dictionary (its keys become exactly the kept ids), and afterwards
every record still in the sequence is retrievable through `get`. -/
theorem C5_truncate_keeps_prefix :
    ∀ (s : LoopPredictionSet) (n : Nat), s.WF →
      ∃ s' : LoopPredictionSet,
        s.truncate n = .ok s' ∧
        s'.loop_predictions = s.loop_predictions.take n ∧
        s'.loop_predictions.length = min n s.loop_predictions.length ∧
        (dictKeys s'.loop_prediction_map).Perm
          ((s.loop_predictions.take n).map LoopPrediction.id) ∧
        ∀ lp ∈ s'.loop_predictions, s'.get lp.id = some lp := by
  intro s n hwf
  rcases truncate_spec s n hwf with ⟨s', he, hl, hkp, hwf'⟩
  refine ⟨s', he, hl, ?_, hkp, ?_⟩
  · rw [hl, List.length_take]
  · intro lp hlp
    exact hwf'.2.2.2 lp hlp

/-- Witness for C5: a concrete two-record well-formed set truncated to one
record. -/
theorem C5_truncate_keeps_prefix_witness :
    ∃ s' : LoopPredictionSet,
      (LoopPredictionSet.mk
          [⟨1, 3, none, some 2, none, none⟩, ⟨2, 1, none, some 5, none, none⟩]
          [(1, ⟨1, 3, none, some 2, none, none⟩),
            (2, ⟨2, 1, none, some 5, none, none⟩)]).truncate 1 = .ok s' ∧
      s'.loop_predictions
        = (LoopPredictionSet.mk
            [⟨1, 3, none, some 2, none, none⟩, ⟨2, 1, none, some 5, none, none⟩]
            [(1, ⟨1, 3, none, some 2, none, none⟩),
              (2, ⟨2, 1, none, some 5, none, none⟩)]).loop_predictions.take 1 ∧
      s'.loop_predictions.length
        = min 1 (LoopPredictionSet.mk
            [⟨1, 3, none, some 2, none, none⟩, ⟨2, 1, none, some 5, none, none⟩]
            [(1, ⟨1, 3, none, some 2, none, none⟩),
              (2, ⟨2, 1, none, some 5, none, none⟩)]).loop_predictions.length ∧
      (dictKeys s'.loop_prediction_map).Perm
        (((LoopPredictionSet.mk
            [⟨1, 3, none, some 2, none, none⟩, ⟨2, 1, none, some 5, none, none⟩]
            [(1, ⟨1, 3, none, some 2, none, none⟩),
              (2, ⟨2, 1, none, some 5, none, none⟩)]).loop_predictions.take 1).map
          LoopPrediction.id) ∧
      ∀ lp ∈ s'.loop_predictions, s'.get lp.id = some lp :=
  C5_truncate_keeps_prefix _ 1 (by decide)

/-- C7: slicing a set with pairwise-distinct ids over an in-bounds contiguous
range `[i:j]` returns a new set whose sequence is exactly the source records
at positions `i ≤ p < j` in the same relative order (position `k` of the slice
is position `i + k` of the source), whose length is the range length `j - i`,
and whose dictionary holds exactly those records under their ids, each
retrievable through `get`; the embedding of `slice` is functional, so the
source set is not modified by it. -/
theorem C7_slice_spec :
    ∀ (s : LoopPredictionSet) (i j : Nat),
      s.loop_predictions.Pairwise (fun a b => a.id ≠ b.id) →
      i ≤ j → j ≤ s.loop_predictions.length →
      (s.getItemSlice i j).loop_predictions = (s.loop_predictions.take j).drop i ∧
      (s.getItemSlice i j).loop_predictions.length = j - i ∧
      (∀ k : Nat, k < j - i →
        (s.getItemSlice i j).loop_predictions.get? k
          = s.loop_predictions.get? (i + k)) ∧
      dictKeys (s.getItemSlice i j).loop_prediction_map
        = ((s.loop_predictions.take j).drop i).map LoopPrediction.id ∧
      ∀ lp ∈ (s.getItemSlice i j).loop_predictions,
        (s.getItemSlice i j).get lp.id = some lp := by
  intro s i j hpw hij hj
  have hsubpw : ((s.loop_predictions.take j).drop i).Pairwise
      (fun a b => a.id ≠ b.id) :=
    (hpw.sublist (List.take_sublist j _)).sublist (List.drop_sublist i _)
  have heq : s.getItemSlice i j
      = ⟨(s.loop_predictions.take j).drop i,
          ((s.loop_predictions.take j).drop i).map (fun lp => (lp.id, lp))⟩ := by
    unfold LoopPredictionSet.getItemSlice
    exact from_list_eq hsubpw
  rw [heq]
  refine ⟨rfl, ?_, ?_, ?_, ?_⟩
  · rw [List.length_drop, List.length_take]
    omega
  · intro k hk
    rw [List.get?_drop, List.get?_take (show i + k < j by omega)]
  · simp [dictKeys, List.map_map]
    rfl
  · intro lp hlp
    exact dictGet_mapSelf hsubpw hlp

/-- Witness for C7 at a concrete three-record set sliced over `[1:3]`. -/
theorem C7_slice_spec_witness :
    ((LoopPredictionSet.mk
        [⟨1, 3, none, some 2, none, none⟩, ⟨2, 1, none, some 5, none, none⟩,
          ⟨3, 4, none, some 1, none, none⟩] []).getItemSlice 1 3).loop_predictions
      = (((LoopPredictionSet.mk
        [⟨1, 3, none, some 2, none, none⟩, ⟨2, 1, none, some 5, none, none⟩,
          ⟨3, 4, none, some 1, none, none⟩] []).loop_predictions.take 3).drop 1) ∧
    ((LoopPredictionSet.mk
        [⟨1, 3, none, some 2, none, none⟩, ⟨2, 1, none, some 5, none, none⟩,
          ⟨3, 4, none, some 1, none, none⟩] []).getItemSlice 1 3).loop_predictions.length
      = 3 - 1 :=
  ⟨(C7_slice_spec _ 1 3 (by decide) (by norm_num) (by decide)).1,
    (C7_slice_spec _ 1 3 (by decide) (by norm_num) (by decide)).2.1⟩

/-! The counting behavior of `fraction_with_rmsd_lt`. -/

/-- Predicate under which the counting loop of `fraction_with_rmsd_lt` counts
a record: `rmsd < x` when strict, `rmsd <= x` otherwise, under the Python 2
ordering (an absent RMSD compares below every number). -/
def countedBelow (x : ℚ) (strict : Bool) (lp : LoopPrediction) : Prop :=
  if strict then pyLt lp.rmsd (some x) else pyLe lp.rmsd (some x)

instance (x : ℚ) (strict : Bool) (lp : LoopPrediction) :
    Decidable (countedBelow x strict lp) := by
  unfold countedBelow
  infer_instance

theorem fractionLoop_cond_iff (x : ℚ) (strict : Bool) (lp : LoopPrediction) :
    ((strict = true ∧ pyLt lp.rmsd (some x)) ∨
      (strict = false ∧ pyLe lp.rmsd (some x))) ↔ countedBelow x strict lp := by
  cases strict <;> simp [countedBelow]

theorem fractionLoop_ok_allow (x : ℚ) (strict : Bool) :
    ∀ (l : List LoopPrediction) (c : Nat),
      fractionLoop x true strict l c
        = .ok (c + l.countP (fun lp => decide (countedBelow x strict lp))) := by
  intro l
  induction l with
  | nil => intro c; simp [fractionLoop]
  | cons lp rest ih =>
    intro c
    simp only [fractionLoop]
    rw [if_neg (by simp)]
    by_cases hc : countedBelow x strict lp
    · rw [if_pos ((fractionLoop_cond_iff x strict lp).mpr hc), ih, List.countP_cons,
        if_pos (decide_eq_true hc)]
      simp only [Except.ok.injEq]
      omega
    · rw [if_neg (fun h => hc ((fractionLoop_cond_iff x strict lp).mp h)), ih,
        List.countP_cons, if_neg (by simp [hc]), Nat.add_zero]

theorem fractionLoop_ok_present (x : ℚ) (strict : Bool) :
    ∀ (l : List LoopPrediction), (∀ lp ∈ l, lp.rmsd ≠ none) →
      ∀ c : Nat,
        fractionLoop x false strict l c
          = .ok (c + l.countP (fun lp => decide (countedBelow x strict lp))) := by
  intro l
  induction l with
  | nil => intro _ c; simp [fractionLoop]
  | cons lp rest ih =>
    intro hall c
    have hlp : lp.rmsd ≠ none := hall lp (List.mem_cons_self _ _)
    have ih' := ih (fun q hq => hall q (List.mem_cons_of_mem _ hq))
    simp only [fractionLoop]
    rw [if_neg (by simp [hlp])]
    by_cases hc : countedBelow x strict lp
    · rw [if_pos ((fractionLoop_cond_iff x strict lp).mpr hc), ih', List.countP_cons,
        if_pos (decide_eq_true hc)]
      simp only [Except.ok.injEq]
      omega
    · rw [if_neg (fun h => hc ((fractionLoop_cond_iff x strict lp).mp h)), ih',
        List.countP_cons, if_neg (by simp [hc]), Nat.add_zero]

theorem fractionLoop_error (x : ℚ) (strict : Bool) :
    ∀ (l : List LoopPrediction), (∃ lp ∈ l, lp.rmsd = none) →
      ∀ c : Nat, fractionLoop x false strict l c = .error .missingData := by
  intro l
  induction l with
  | nil =>
    intro h c
    rcases h with ⟨lp, hm, _⟩
    exact absurd hm (List.not_mem_nil lp)
  | cons q rest ih =>
    intro h c
    by_cases hq : q.rmsd = none
    · simp [fractionLoop, hq]
    · rcases h with ⟨lp, hmem, hnone⟩
      rcases List.mem_cons.mp hmem with rfl | hmem'
      · exact absurd hnone hq
      · simp only [fractionLoop]
        rw [if_neg (by simp [hq])]
        split_ifs <;> exact ih ⟨lp, hmem', hnone⟩ _

/-- C1 (code bug): `add` with an id already present does not fail. The
duplicate-id assert tests membership of the id in the record list — where an
id never equals a record — so it always passes: the call appends a second
record with the same id (the sequence grows from one record to two) and
overwrites the dictionary entry with the new record. -/
theorem C1_duplicate_add_not_rejected :
    (LoopPredictionSet.from_list [⟨1, 5, none, none, none, none⟩]).add 1 7
        none none none none
      = .ok (⟨[⟨1, 5, none, none, none, none⟩, ⟨1, 7, none, none, none, none⟩],
            [(1, ⟨1, 7, none, none, none, none⟩)]⟩,
          ⟨1, 7, none, none, none, none⟩) := by
  rfl

/-- C2 counterexample: on a one-record set whose record lacks a deviation,
`fraction_with_rmsd_lt` with the allow-missing flag set returns 1 — the
missing-deviation record is counted as below the threshold — and not the 0
that excluding it from the count would give. -/
theorem C2_counterexample_missing_counted :
    (LoopPredictionSet.mk [⟨1, 0, none, none, none, none⟩]
        [(1, ⟨1, 0, none, none, none, none⟩)]).fraction_with_rmsd_lt 1 true true
      = .ok 1 ∧
    ((.ok (1 : ℚ) : Except PyError ℚ) ≠ .ok (0 : ℚ)) := by
  constructor
  · have h : fractionLoop 1 true true [⟨1, 0, none, none, none, none⟩] 0 = .ok 1 := rfl
    simp only [LoopPredictionSet.fraction_with_rmsd_lt, h]
    norm_num
  · simp

/-- C2 (amended): with the allow-missing flag set, `fraction_with_rmsd_lt`
does not fail on a set in which some records lack a deviation: it returns the
number of records passing the Python 2 threshold comparison divided by the
total record count — and every record with an absent deviation passes that
comparison (`None` compares below every number), so missing-deviation records
are counted as below the threshold rather than excluded. -/
theorem C2_allow_missing_counts_none_below :
    ∀ (s : LoopPredictionSet) (x : ℚ) (strict : Bool),
      (∃ lp ∈ s.loop_predictions, lp.rmsd = none) →
      s.fraction_with_rmsd_lt x true strict
        = .ok ((s.loop_predictions.countP
              (fun lp => decide (countedBelow x strict lp)) : ℚ)
            / (s.loop_predictions.length : ℚ)) ∧
      ∀ lp : LoopPrediction, lp.rmsd = none → countedBelow x strict lp := by
  intro s x strict hmiss
  constructor
  · have hne : s.loop_predictions ≠ [] := by
      rcases hmiss with ⟨lp, hm, _⟩
      exact List.ne_nil_of_mem hm
    simp only [LoopPredictionSet.fraction_with_rmsd_lt, fractionLoop_ok_allow]
    rw [if_neg (by simpa using hne)]
    simp
  · intro lp h
    cases strict <;> simp [countedBelow, h, pyLt, pyLe]

/-- Witness for C2 at a concrete two-record set, one record lacking a
deviation. -/
theorem C2_allow_missing_counts_none_below_witness :
    (LoopPredictionSet.mk [⟨1, 0, none, none, none, none⟩,
          ⟨2, 0, none, some 5, none, none⟩] []).fraction_with_rmsd_lt 1 true true
      = .ok (((LoopPredictionSet.mk [⟨1, 0, none, none, none, none⟩,
              ⟨2, 0, none, some 5, none, none⟩] []).loop_predictions.countP
            (fun lp => decide (countedBelow 1 true lp)) : ℚ)
          / ((LoopPredictionSet.mk [⟨1, 0, none, none, none, none⟩,
              ⟨2, 0, none, some 5, none, none⟩] []).loop_predictions.length : ℚ)) ∧
    ∀ lp : LoopPrediction, lp.rmsd = none → countedBelow 1 true lp :=
  C2_allow_missing_counts_none_below _ 1 true (by decide)

/-- C6 counterexample: on the empty set — all of whose records vacuously carry
a deviation — `fraction_with_rmsd_lt` does not return a fraction in `[0,1]`:
the division by the record count raises `ZeroDivisionError`. -/
theorem C6_counterexample_empty_set :
    (LoopPredictionSet.mk [] []).fraction_with_rmsd_lt 1 false true
      = .error PyError.zeroDivisionError := by
  rfl

/-- C6 (amended): on a nonempty set all of whose records carry a deviation,
`fraction_with_rmsd_lt x strict` returns the number of records whose deviation
is below the threshold (strictly below for strict, at-or-below otherwise)
divided by the total record count, a value in `[0,1]`; and whenever some
record lacks a deviation and the allow flag is unset, it fails with
`MissingData`. -/
theorem C6_fraction_below_threshold :
    ∀ (s : LoopPredictionSet) (x : ℚ) (strict : Bool),
      (s.loop_predictions ≠ [] →
        (∀ lp ∈ s.loop_predictions, lp.rmsd ≠ none) →
        s.fraction_with_rmsd_lt x false strict
          = .ok ((s.loop_predictions.countP
                (fun lp => decide (countedBelow x strict lp)) : ℚ)
              / (s.loop_predictions.length : ℚ)) ∧
        0 ≤ ((s.loop_predictions.countP
              (fun lp => decide (countedBelow x strict lp)) : ℚ)
            / (s.loop_predictions.length : ℚ)) ∧
        ((s.loop_predictions.countP
              (fun lp => decide (countedBelow x strict lp)) : ℚ)
            / (s.loop_predictions.length : ℚ)) ≤ 1) ∧
      ((∃ lp ∈ s.loop_predictions, lp.rmsd = none) →
        s.fraction_with_rmsd_lt x false strict = .error .missingData) := by
  intro s x strict
  constructor
  · intro hne hall
    have hlen : (0 : ℚ) < (s.loop_predictions.length : ℚ) := by
      have : 0 < s.loop_predictions.length := List.length_pos.mpr hne
      exact_mod_cast this
    refine ⟨?_, ?_, ?_⟩
    · simp only [LoopPredictionSet.fraction_with_rmsd_lt,
        fractionLoop_ok_present x strict _ hall]
      rw [if_neg (by simpa using hne)]
      simp
    · positivity
    · rw [div_le_one hlen]
      exact_mod_cast List.countP_le_length _
  · intro hmiss
    simp only [LoopPredictionSet.fraction_with_rmsd_lt,
      fractionLoop_error x strict _ hmiss]

/-- Concrete four-record set realizing the spec example, with deviations
0.5, 1.0, 1.5 and 0.9. -/
def exampleSet4 : LoopPredictionSet :=
  ⟨[⟨1, 10, none, some (mkRat 1 2), none, none⟩,
    ⟨2, 20, none, some 1, none, none⟩,
    ⟨3, 30, none, some (mkRat 3 2), none, none⟩,
    ⟨4, 40, none, some (mkRat 9 10), none, none⟩], []⟩

/-- Witness for C6 at the concrete four-record set with deviations
0.5, 1.0, 1.5, 0.9: the strict fraction below 1.0 is one half and the
non-strict fraction is three quarters. -/
theorem C6_fraction_below_threshold_witness :
    exampleSet4.fraction_with_rmsd_lt 1 false true = .ok (mkRat 1 2) ∧
    exampleSet4.fraction_with_rmsd_lt 1 false false = .ok (mkRat 3 4) := by
  have h1 := (C6_fraction_below_threshold exampleSet4 1 true).1
    (by decide) (by decide)
  have h2 := (C6_fraction_below_threshold exampleSet4 1 false).1
    (by decide) (by decide)
  have hc1 : exampleSet4.loop_predictions.countP
      (fun lp => decide (countedBelow 1 true lp)) = 2 := by decide
  have hc2 : exampleSet4.loop_predictions.countP
      (fun lp => decide (countedBelow 1 false lp)) = 3 := by decide
  have hl : exampleSet4.loop_predictions.length = 4 := by decide
  constructor
  · rw [h1.1]
    simp only [Except.ok.injEq]
    rw [hc1, hl]
    norm_num [mkRat]
  · rw [h2.1]
    simp only [Except.ok.injEq]
    rw [hc2, hl]
    norm_num [mkRat]

/-! Behavior of Python list indexing and `__getitem__` on integer keys. -/

theorem pyListGet_neg (l : List LoopPrediction) (key : Int)
    (h1 : -(l.length : Int) ≤ key) (h2 : key < 0) :
    ∃ lp, pyListGet l key = .ok lp ∧ l.get? (key + l.length).toNat = some lp := by
  have hb : 0 ≤ key + (l.length : Int) ∧ key + (l.length : Int) < (l.length : Int) := by
    omega
  simp only [pyListGet, if_pos h2]
  rw [dif_pos hb]
  have hlt : (key + (l.length : Int)).toNat < l.length := by omega
  exact ⟨_, rfl, (List.get?_eq_get hlt).symm ▸ rfl⟩

theorem pyListGet_nat (l : List LoopPrediction) (n : Nat) (h : n < l.length) :
    ∃ lp, pyListGet l (n : Int) = .ok lp ∧ l.get? n = some lp := by
  have h2 : ¬ ((n : Int) < 0) := by omega
  simp only [pyListGet, if_neg h2]
  have hb : 0 ≤ (n : Int) ∧ (n : Int) < (l.length : Int) := ⟨by omega, by exact_mod_cast h⟩
  rw [dif_pos hb]
  refine ⟨_, rfl, ?_⟩
  have ht : l.get? n = l.get? (((n : Int)).toNat) := by
    rw [show ((n : Int)).toNat = n from by omega]
  rw [ht]
  exact List.get?_eq_get (by omega)

theorem getItemInt_nat (s : LoopPredictionSet) (n : Nat)
    (h : n < s.loop_predictions.length) :
    ∃ lp, s.getItemInt (n : Int) = .ok lp ∧ s.loop_predictions.get? n = some lp := by
  rcases pyListGet_nat s.loop_predictions n h with ⟨lp, h1, h2⟩
  refine ⟨lp, ?_, h2⟩
  have hcond : ¬ ((s.loop_predictions.length : Int) ≤ (n : Int)) := by
    exact_mod_cast not_le.mpr h
  simp only [LoopPredictionSet.getItemInt, if_neg hcond]
  exact h1

/-- C10: single-index access on a nonempty set of length L with a negative
index i in [-L, 0) returns the record at position L + i of the current order
with no error at all; index -1 in particular returns the last record (the one
the pipeline reads as the worst-by-score record); and the explicit
`IndexError` branch of `__getitem__` is taken exactly for indices i ≥ L. -/
theorem C10_negative_indexing :
    ∀ (s : LoopPredictionSet) (i : Int),
      (-(s.loop_predictions.length : Int) ≤ i → i < 0 →
        ∃ lp : LoopPrediction, s.getItemInt i = .ok lp ∧
          s.loop_predictions.get? (i + s.loop_predictions.length).toNat = some lp) ∧
      (i = -1 → s.loop_predictions ≠ [] →
        ∃ lp : LoopPrediction, s.getItemInt i = .ok lp ∧
          s.loop_predictions.getLast? = some lp) ∧
      (s.getItemInt i = .error .indexErrorExplicit ↔
        (s.loop_predictions.length : Int) ≤ i) := by
  intro s i
  refine ⟨?_, ?_, ?_⟩
  · intro h1 h2
    have hcond : ¬ ((s.loop_predictions.length : Int) ≤ i) := by omega
    rcases pyListGet_neg s.loop_predictions i h1 h2 with ⟨lp, hok, hget⟩
    refine ⟨lp, ?_, hget⟩
    simp only [LoopPredictionSet.getItemInt, if_neg hcond]
    exact hok
  · rintro rfl hne
    have hlen : 0 < s.loop_predictions.length := List.length_pos.mpr hne
    have hcond : ¬ ((s.loop_predictions.length : Int) ≤ -1) := by omega
    rcases pyListGet_neg s.loop_predictions (-1) (by omega) (by omega)
      with ⟨lp, hok, hget⟩
    refine ⟨lp, ?_, ?_⟩
    · simp only [LoopPredictionSet.getItemInt, if_neg hcond]
      exact hok
    · have hidx : ((-1) + (s.loop_predictions.length : Int)).toNat
          = s.loop_predictions.length - 1 := by omega
      rw [hidx] at hget
      rw [List.getLast?_eq_getLast_of_ne_nil hne]
      rw [List.getLast_eq_get]
      exact (hget.symm.trans (List.get?_eq_get (by omega))).symm ▸ rfl
  · constructor
    · intro herr
      by_contra hge
      have hlt : i < (s.loop_predictions.length : Int) := by omega
      simp only [LoopPredictionSet.getItemInt, if_neg (not_le.mpr hlt)] at herr
      simp only [pyListGet] at herr
      by_cases hin : 0 ≤ (if i < 0 then i + (s.loop_predictions.length : Int) else i) ∧
          (if i < 0 then i + (s.loop_predictions.length : Int) else i)
            < (s.loop_predictions.length : Int)
      · rw [dif_pos hin] at herr
        exact absurd herr (by simp)
      · rw [dif_neg hin] at herr
        exact absurd herr (by simp)
    · intro hge
      simp only [LoopPredictionSet.getItemInt, if_pos hge]

/-- Witness for C10 at a concrete two-record set and index -1: the access
returns the last record, and the explicit IndexError appears exactly at
indices at or above the length. -/
theorem C10_negative_indexing_witness :
    (∃ lp : LoopPrediction,
      (LoopPredictionSet.mk [⟨1, 3, none, none, none, none⟩,
          ⟨2, 4, none, none, none, none⟩] []).getItemInt (-1) = .ok lp ∧
      (LoopPredictionSet.mk [⟨1, 3, none, none, none, none⟩,
          ⟨2, 4, none, none, none, none⟩] []).loop_predictions.getLast? = some lp) ∧
    ((LoopPredictionSet.mk [⟨1, 3, none, none, none, none⟩,
          ⟨2, 4, none, none, none, none⟩] []).getItemInt 2
        = .error .indexErrorExplicit ↔
      ((LoopPredictionSet.mk [⟨1, 3, none, none, none, none⟩,
          ⟨2, 4, none, none, none, none⟩] []).loop_predictions.length : Int) ≤ 2) :=
  ⟨(C10_negative_indexing _ (-1)).2.1 rfl (by decide),
    (C10_negative_indexing _ 2).2.2⟩

/-- Sorting by score preserves the well-formedness invariant: the sequence is
permuted in place and the dictionary is untouched. -/
theorem sort_by_score_WF {s : LoopPredictionSet} (hwf : s.WF) :
    (s.sort_by_score).WF := by
  obtain ⟨hpw, hknd, hkperm, hget⟩ := hwf
  have hperm : (sortCmp LoopPrediction.sort_by_score s.loop_predictions).Perm
      s.loop_predictions := sortCmp_perm _ _
  refine ⟨?_, hknd, ?_, ?_⟩
  · exact (hperm.pairwise_iff (fun h' => Ne.symm h')).mpr hpw
  · exact hkperm.trans (hperm.map LoopPrediction.id).symm
  · intro lp hlp
    exact hget lp (hperm.mem_iff.mp hlp)

/-- C8: on a well-formed set of exactly `expectn` records (`expectn > 0`), the
pipeline fragment that selects the median-by-score record — sort by score,
truncate to `expectn`, then read index `int(expectn / 2)` — succeeds and
returns precisely the record at zero-based index `expectn / 2` (integer floor
division) of the score-sorted order. -/
theorem C8_median_index :
    ∀ (s : LoopPredictionSet) (expectn : Nat), s.WF →
      s.loop_predictions.length = expectn → 0 < expectn →
      ∃ m : LoopPrediction,
        pipelineMedian s expectn = .ok m ∧
        (sortCmp LoopPrediction.sort_by_score s.loop_predictions).get? (expectn / 2)
          = some m := by
  intro s expectn hwf hlen hpos
  have hwf' := sort_by_score_WF hwf
  rcases truncate_spec (s.sort_by_score) expectn hwf' with ⟨t, he, hl, _hkp, _htwf⟩
  have hslen : (s.sort_by_score).loop_predictions.length = expectn := by
    simp only [LoopPredictionSet.sort_by_score]
    rw [(sortCmp_perm _ _).length_eq, hlen]
  have htl : t.loop_predictions = (s.sort_by_score).loop_predictions := by
    rw [hl, List.take_of_length_le (le_of_eq hslen)]
  have htlen : t.loop_predictions.length = expectn := by rw [htl, hslen]
  have hidx : expectn / 2 < expectn := Nat.div_lt_self hpos (by norm_num)
  rcases getItemInt_nat t (expectn / 2) (by rw [htlen]; exact hidx) with ⟨m, hok, hget⟩
  refine ⟨m, ?_, ?_⟩
  · simp only [pipelineMedian, he]
    exact hok
  · rw [htl] at hget
    simpa only [LoopPredictionSet.sort_by_score] using hget

/-- Concrete ten-record set with scores 10 down to 1 (score order is the
reverse of insertion order) and all deviations present, together with its
dictionary. -/
def exampleSet10 : LoopPredictionSet :=
  ⟨[⟨1, 10, none, some 3, none, none⟩, ⟨2, 9, none, some 4, none, none⟩,
    ⟨3, 8, none, some 5, none, none⟩, ⟨4, 7, none, some 6, none, none⟩,
    ⟨5, 6, none, some 7, none, none⟩, ⟨6, 5, none, some 8, none, none⟩,
    ⟨7, 4, none, some 9, none, none⟩, ⟨8, 3, none, some 1, none, none⟩,
    ⟨9, 2, none, some 10, none, none⟩, ⟨10, 1, none, some 11, none, none⟩],
   [(1, ⟨1, 10, none, some 3, none, none⟩), (2, ⟨2, 9, none, some 4, none, none⟩),
    (3, ⟨3, 8, none, some 5, none, none⟩), (4, ⟨4, 7, none, some 6, none, none⟩),
    (5, ⟨5, 6, none, some 7, none, none⟩), (6, ⟨6, 5, none, some 8, none, none⟩),
    (7, ⟨7, 4, none, some 9, none, none⟩), (8, ⟨8, 3, none, some 1, none, none⟩),
    (9, ⟨9, 2, none, some 10, none, none⟩), (10, ⟨10, 1, none, some 11, none, none⟩)]⟩

/-- Witness for C8: on the concrete ten-record set, the median selection reads
the record at index 5 of the score-sorted order. -/
theorem C8_median_index_witness :
    ∃ m : LoopPrediction,
      pipelineMedian exampleSet10 10 = .ok m ∧
      (sortCmp LoopPrediction.sort_by_score exampleSet10.loop_predictions).get? 5
        = some m :=
  C8_median_index exampleSet10 10 (by decide) (by decide) (by decide)

/-! The TopX linear scan. -/

theorem lexLe_trans {r1 r2 r3 : Option ℚ} {s1 s2 s3 : ℚ}
    (h1 : pyLt r1 r2 ∨ (r1 = r2 ∧ s1 ≤ s2))
    (h2 : pyLt r2 r3 ∨ (r2 = r3 ∧ s2 ≤ s3)) :
    pyLt r1 r3 ∨ (r1 = r3 ∧ s1 ≤ s3) := by
  rcases h1 with h1 | ⟨e1, hs1⟩ <;> rcases h2 with h2 | ⟨e2, hs2⟩
  · exact Or.inl (pyLt_trans h1 h2)
  · exact Or.inl (e2 ▸ h1)
  · exact Or.inl (e1 ▸ h2)
  · exact Or.inr ⟨e1.trans e2, le_trans hs1 hs2⟩

theorem topXScan_spec :
    ∀ (l : List LoopPrediction) (r0 : Option ℚ) (sc0 : ℚ),
      (((topXScan l (r0, sc0)).1 = r0 ∧ (topXScan l (r0, sc0)).2 = sc0) ∨
        ∃ m ∈ l, (topXScan l (r0, sc0)).1 = m.rmsd ∧
          (topXScan l (r0, sc0)).2 = m.score) ∧
      (pyLt (topXScan l (r0, sc0)).1 r0 ∨
        ((topXScan l (r0, sc0)).1 = r0 ∧ (topXScan l (r0, sc0)).2 ≤ sc0)) ∧
      ∀ q ∈ l, pyLt (topXScan l (r0, sc0)).1 q.rmsd ∨
        ((topXScan l (r0, sc0)).1 = q.rmsd ∧ (topXScan l (r0, sc0)).2 ≤ q.score) := by
  intro l
  induction l with
  | nil =>
    intro r0 sc0
    exact ⟨Or.inl ⟨rfl, rfl⟩, Or.inr ⟨rfl, le_refl _⟩,
      fun q hq => absurd hq (List.not_mem_nil _)⟩
  | cons p rest ih =>
    intro r0 sc0
    by_cases hp : pyLt p.rmsd r0 ∨ (p.rmsd = r0 ∧ p.score < sc0)
    · have hred : topXScan (p :: rest) (r0, sc0) = topXScan rest (p.rmsd, p.score) := by
        simp only [topXScan, if_pos hp]
      rcases ih p.rmsd p.score with ⟨hatt, hle, hall⟩
      rw [hred]
      have hp' : pyLt p.rmsd r0 ∨ (p.rmsd = r0 ∧ p.score ≤ sc0) := by
        rcases hp with h | ⟨e, hs⟩
        · exact Or.inl h
        · exact Or.inr ⟨e, le_of_lt hs⟩
      refine ⟨?_, lexLe_trans hle hp', ?_⟩
      · rcases hatt with ⟨h1, h2⟩ | ⟨m, hm, h1, h2⟩
        · exact Or.inr ⟨p, List.mem_cons_self _ _, h1, h2⟩
        · exact Or.inr ⟨m, List.mem_cons_of_mem _ hm, h1, h2⟩
      · intro q hq
        rcases List.mem_cons.mp hq with rfl | hmem
        · exact hle
        · exact hall q hmem
    · have hred : topXScan (p :: rest) (r0, sc0) = topXScan rest (r0, sc0) := by
        simp only [topXScan, if_neg hp]
      rcases ih r0 sc0 with ⟨hatt, hle, hall⟩
      rw [hred]
      have hbase : pyLt r0 p.rmsd ∨ (r0 = p.rmsd ∧ sc0 ≤ p.score) := by
        push_neg at hp
        rcases pyLt_trichotomy r0 p.rmsd with h | h | h
        · exact Or.inl h
        · exact Or.inr ⟨h, hp.2 h.symm⟩
        · exact absurd h hp.1
      refine ⟨?_, hle, ?_⟩
      · rcases hatt with h | ⟨m, hm, h1, h2⟩
        · exact Or.inl h
        · exact Or.inr ⟨m, List.mem_cons_of_mem _ hm, h1, h2⟩
      · intro q hq
        rcases List.mem_cons.mp hq with rfl | hmem
        · exact lexLe_trans hle hbase
        · exact hall q hmem

/-! Facts about score-sorted lists. -/

theorem pairwise_rel_getLast {R : LoopPrediction → LoopPrediction → Prop} :
    ∀ {l : List LoopPrediction}, l.Pairwise R →
      ∀ a ∈ l, ∀ (h : l ≠ []), a = l.getLast h ∨ R a (l.getLast h) := by
  intro l
  induction l with
  | nil => intro _ a ha; exact absurd ha (List.not_mem_nil a)
  | cons x xs ih =>
    intro hs a ha h
    cases xs with
    | nil =>
      rcases List.mem_cons.mp ha with rfl | hmem
      · exact Or.inl rfl
      · exact absurd hmem (List.not_mem_nil a)
    | cons y ys =>
      have hne : (y :: ys) ≠ ([] : List LoopPrediction) := by simp
      have hgl : (x :: y :: ys).getLast h = (y :: ys).getLast hne :=
        List.getLast_cons hne
      rcases List.mem_cons.mp ha with rfl | hmem
      · right
        rw [hgl]
        exact (List.pairwise_cons.mp hs).1 _ (List.getLast_mem hne)
      · rw [hgl]
        exact ih (List.pairwise_cons.mp hs).2 a hmem hne

theorem score_le_of_cmp_lt {a b : LoopPrediction}
    (h : LoopPrediction.sort_by_score a b < 0) : a.score ≤ b.score := by
  rcases (sort_by_score_lt_iff a b).mp h with h' | ⟨h', _⟩ | ⟨h', _, _⟩
  · exact le_of_lt h'
  · exact le_of_eq h'
  · exact le_of_eq h'

theorem take_head_eq {l : List LoopPrediction} {n : Nat} (h : 1 ≤ n) :
    (l.take n).head? = l.head? := by
  cases l with
  | nil => simp
  | cons x xs =>
    cases n with
    | zero => omega
    | succ m => simp [List.take]

/-- C9: on a score-sorted set whose records all carry a deviation, with
best = set[0] and worst = set[-1] and 1 ≤ topx ≤ length: the first record of
the TopX slice set[:topx] equals the first record of the full set; and the
linear scan over the TopX slice started from best's (rmsd, score) pair
returns the (rmsd, score) of a member of the slice that is lexicographically
minimal — the minimum deviation over the TopX subset with score as tie-break —
and satisfies both pipeline invariants: its deviation is at most best's
deviation (top1) and its score is at most worst's score. -/
theorem C9_topx_scan :
    ∀ (t : LoopPredictionSet) (topx : Nat) (best worst : LoopPrediction),
      t.loop_predictions.Pairwise
        (fun a b => LoopPrediction.sort_by_score a b < 0) →
      (∀ lp ∈ t.loop_predictions, lp.rmsd ≠ none) →
      1 ≤ topx → topx ≤ t.loop_predictions.length →
      t.getItemInt 0 = .ok best →
      t.getItemInt (-1) = .ok worst →
      (t.getItemSlice 0 topx).loop_predictions.head? = t.loop_predictions.head? ∧
      ∃ m ∈ (t.getItemSlice 0 topx).loop_predictions,
        topXScan (t.getItemSlice 0 topx).loop_predictions (best.rmsd, best.score)
          = (m.rmsd, m.score) ∧
        (∀ q ∈ (t.getItemSlice 0 topx).loop_predictions,
          pyLt m.rmsd q.rmsd ∨ (m.rmsd = q.rmsd ∧ m.score ≤ q.score)) ∧
        pyLe m.rmsd best.rmsd ∧
        m.score ≤ worst.score := by
  intro t topx best worst hsorted _hrmsd htopx1 htopx2 hbest hworst
  have hlenpos : 0 < t.loop_predictions.length := lt_of_lt_of_le htopx1 htopx2
  have hne : t.loop_predictions ≠ [] := List.ne_nil_of_length_pos hlenpos
  have hslist : (t.getItemSlice 0 topx).loop_predictions
      = t.loop_predictions.take topx := by
    unfold LoopPredictionSet.getItemSlice
    rw [from_list_loop_predictions, List.drop_zero]
  obtain ⟨x, xs, hx⟩ : ∃ x xs, t.loop_predictions = x :: xs := by
    cases hl : t.loop_predictions with
    | nil => exact absurd hl hne
    | cons a l => exact ⟨a, l, rfl⟩
  -- best is the head record x
  rcases getItemInt_nat t 0 hlenpos with ⟨b0, hok0, hget0⟩
  rw [Nat.cast_zero] at hok0
  rw [hbest] at hok0
  injection hok0 with hb0
  have hbx : b0 = x := by
    rw [hx] at hget0
    simp only [List.get?] at hget0
    injection hget0 with hv
    exact hv.symm
  have hbest_x : best = x := hb0.trans hbx
  -- worst is the last record
  have hcondw : ¬ ((t.loop_predictions.length : Int) ≤ -1) := by omega
  rcases pyListGet_neg t.loop_predictions (-1) (by omega) (by norm_num)
    with ⟨w0, hokw, hgetw⟩
  have hwitem : t.getItemInt (-1) = .ok w0 := by
    simp only [LoopPredictionSet.getItemInt, if_neg hcondw]
    exact hokw
  rw [hworst] at hwitem
  injection hwitem with hw0
  have hlast_worst : t.loop_predictions.getLast hne = worst := by
    have hidx : ((-1) + (t.loop_predictions.length : Int)).toNat
        = t.loop_predictions.length - 1 := by omega
    rw [hidx, List.get?_eq_get (by omega)] at hgetw
    injection hgetw with hgl
    rw [hw0, ← hgl, List.getLast_eq_get]
  have hscore_bound : ∀ a ∈ t.loop_predictions, a.score ≤ worst.score := by
    intro a ha
    rcases pairwise_rel_getLast hsorted a ha hne with he | hr
    · rw [he, hlast_worst]
    · exact (score_le_of_cmp_lt hr).trans (le_of_eq (congrArg LoopPrediction.score hlast_worst))
  have hmem_sub : ∀ q ∈ (t.getItemSlice 0 topx).loop_predictions,
      q ∈ t.loop_predictions := by
    intro q hq
    rw [hslist] at hq
    exact (List.take_sublist topx _).subset hq
  have hbest_mem : best ∈ (t.getItemSlice 0 topx).loop_predictions := by
    rw [hslist, hx, hbest_x]
    obtain ⟨k, rfl⟩ : ∃ k, topx = k + 1 := ⟨topx - 1, by omega⟩
    exact List.mem_cons_self x (xs.take k)
  rcases topXScan_spec ((t.getItemSlice 0 topx).loop_predictions) best.rmsd best.score
    with ⟨hatt, hle, hall⟩
  constructor
  · rw [hslist]
    exact take_head_eq htopx1
  · rcases hatt with ⟨h1, h2⟩ | ⟨m, hm, h1, h2⟩
    · refine ⟨best, hbest_mem, Prod.ext h1 h2, ?_, ?_, ?_⟩
      · intro q hq
        have := hall q hq
        rw [h1, h2] at this
        exact this
      · exact pyLe_iff.mpr (Or.inr rfl)
      · exact hscore_bound best (hmem_sub best hbest_mem)
    · refine ⟨m, hm, Prod.ext h1 h2, ?_, ?_, ?_⟩
      · intro q hq
        have := hall q hq
        rw [h1, h2] at this
        exact this
      · rcases hle with h | ⟨he, _⟩
        · exact pyLe_iff.mpr (Or.inl (h1 ▸ h))
        · exact pyLe_iff.mpr (Or.inr (h1 ▸ he))
      · exact hscore_bound m (hmem_sub m hm)

/-- Concrete score-sorted ten-record set (ascending scores 1..10, the sorted
form of the spec example's reverse-inserted scores) in which the third-best
scoring record has the lowest deviation, 2, among the top three. -/
def exampleSorted10 : LoopPredictionSet :=
  ⟨[⟨1, 1, none, some 5, none, none⟩, ⟨2, 2, none, some 6, none, none⟩,
    ⟨3, 3, none, some 2, none, none⟩, ⟨4, 4, none, some 7, none, none⟩,
    ⟨5, 5, none, some 8, none, none⟩, ⟨6, 6, none, some 9, none, none⟩,
    ⟨7, 7, none, some 10, none, none⟩, ⟨8, 8, none, some 11, none, none⟩,
    ⟨9, 9, none, some 12, none, none⟩, ⟨10, 10, none, some 13, none, none⟩], []⟩

/-- Witness for C9: on the concrete sorted ten-record set with topx = 3, the
TopX slice starts with the set's first record and the scan yields a
lexicographically minimal member of the top three whose deviation is at most
the top scorer's deviation and whose score is at most the worst score. -/
theorem C9_topx_scan_witness :
    (exampleSorted10.getItemSlice 0 3).loop_predictions.head?
      = exampleSorted10.loop_predictions.head? ∧
    ∃ m ∈ (exampleSorted10.getItemSlice 0 3).loop_predictions,
      topXScan (exampleSorted10.getItemSlice 0 3).loop_predictions
          ((⟨1, 1, none, some 5, none, none⟩ : LoopPrediction).rmsd,
            (⟨1, 1, none, some 5, none, none⟩ : LoopPrediction).score)
        = (m.rmsd, m.score) ∧
      (∀ q ∈ (exampleSorted10.getItemSlice 0 3).loop_predictions,
        pyLt m.rmsd q.rmsd ∨ (m.rmsd = q.rmsd ∧ m.score ≤ q.score)) ∧
      pyLe m.rmsd (⟨1, 1, none, some 5, none, none⟩ : LoopPrediction).rmsd ∧
      m.score ≤ (⟨10, 10, none, some 13, none, none⟩ : LoopPrediction).score :=
  C9_topx_scan exampleSorted10 3
    ⟨1, 1, none, some 5, none, none⟩ ⟨10, 10, none, some 13, none, none⟩
    (by decide) (by decide) (by decide) (by decide) rfl rfl
